import Mathlib

/-!
Verification of the image-cache subsystem of the img-grid server
(src/cloudinary-server.ts) against its natural-language specification.

Embedding conventions:
* JavaScript numbers are exact integers in this code (timestamps from
  Date.now(), byte counts, entry counts); they are modelled as Nat, except
  the global running size counter which is modelled as Int because the code
  can drive it negative (see the clear-during-fetch scenario below).
* The freshness test is written with Nat subtraction.  For all inputs it
  agrees with the JavaScript real-number comparison: when lastFetched <= now
  both compute now - lastFetched, and when lastFetched > now the JS value is
  negative so "< CACHE_DURATION" is true and "> CACHE_DURATION" is false,
  matching Nat truncation to 0.
* The JS object imageCache is modelled as an insertion-ordered association
  list with (in any state the program can reach) pairwise-distinct keys,
  which is exactly the observable behaviour of a string-keyed JS object:
  Object.entries/for-in enumerate in insertion order, assignment to an
  existing key keeps its position, assignment to a fresh key appends.
* JS strings that are only compared for equality (tags, paths) are String;
  the Authorization header and the configured API key, on which the code
  performs startsWith/slice, are modelled as lists of characters.
* The async control flow of getCloudinaryImagesByTag is split at its only
  suspension point (the await of the provider call): the synchronous prefix
  (lines 208-269 of the source) is getCloudinaryImagesByTagCall, and the
  code that runs when the provider promise settles (the tail of the inner
  IIFE, lines 231-258, resp. the .catch handler, lines 272-287) is
  fetchPromiseSettle.  A caller that found a pending fetch returns the
  stored promise itself (line 222); since the stored promise (line 264) is
  the raw fetchPromise and not the .catch-guarded chain returned to the
  initiating caller (line 272), such an attached caller observes the
  provider's own settlement, which is attachedCallerResult.
* Provider settlement is Except Unit (List CloudinaryImage): .ok images for
  a fulfilled fetch, .error () for a rejection.
-/

namespace ImgGrid

/-- Image metadata record returned by the provider
(interface CloudinaryImage in src/lib/cloudinary.ts); the cache treats it
as opaque beyond counting. -/
structure CloudinaryImage where
  public_id : String
  secure_url : String
  width : Nat
  height : Nat
  format : String
  resource_type : String
  created_at : String
  bytes : Nat
  deriving DecidableEq, Repr

/-- interface ImageCacheEntry (src/cloudinary-server.ts lines 10-17).
The promise field holds the identifier of the in-flight fetch when one is
pending. -/
structure ImageCacheEntry where
  images : List CloudinaryImage
  promise : Option Nat
  lastFetched : Nat
  lastAccessed : Nat
  count : Nat
  sizeBytes : Nat
  deriving DecidableEq, Repr

/-- The module-level mutable state: the imageCache object (line 23) and the
currentCacheSize counter (line 29). -/
structure CacheState where
  imageCache : List (String × ImageCacheEntry)
  currentCacheSize : Int
  deriving DecidableEq, Repr

def CACHE_DURATION : Nat := 5 * 60 * 1000

def MAX_CACHE_SIZE : Int := 50 * 1024 * 1024

def MAX_CACHE_ENTRIES : Nat := 20

/-- calculateImageDataSize (lines 32-35): ~1KB per image metadata object. -/
def calculateImageDataSize (images : List CloudinaryImage) : Nat :=
  images.length * 1024

/-- Reading imageCache[tag]. -/
def lookupTag (cache : List (String × ImageCacheEntry)) (tag : String) :
    Option ImageCacheEntry :=
  match cache with
  | [] => none
  | (t, e) :: rest => if t = tag then some e else lookupTag rest tag

/-- Assignment imageCache[tag] = e: replaces in place when the key exists,
appends otherwise (JS object key order). -/
def setTag (cache : List (String × ImageCacheEntry)) (tag : String)
    (e : ImageCacheEntry) : List (String × ImageCacheEntry) :=
  match cache with
  | [] => [(tag, e)]
  | (t, e0) :: rest =>
    if t = tag then (t, e) :: rest else (t, e0) :: setTag rest tag e

/-- delete imageCache[tag]. -/
def deleteTag (cache : List (String × ImageCacheEntry)) (tag : String) :
    List (String × ImageCacheEntry) :=
  cache.filter (fun p => p.1 != tag)

/-- Stable insertion step for the sort of line 47
(entries.sort by ascending lastAccessed). -/
def insertByAccessed (x : String × ImageCacheEntry) :
    List (String × ImageCacheEntry) → List (String × ImageCacheEntry)
  | [] => [x]
  | y :: ys =>
    if y.2.lastAccessed < x.2.lastAccessed then y :: insertByAccessed x ys
    else x :: y :: ys

/-- Stable sort of the snapshot array by ascending lastAccessed (line 47). -/
def sortByAccessed :
    List (String × ImageCacheEntry) → List (String × ImageCacheEntry)
  | [] => []
  | x :: xs => insertByAccessed x (sortByAccessed xs)

/-- The while loop of evictLRUEntries (lines 50-61).  The loop condition
re-reads the length of the shrinking local snapshot array, so entries
shifted off and merely skipped (pending fetch, line 54-56) still count as
gone for the entry-count test. -/
def evictLoop :
    List (String × ImageCacheEntry) → CacheState → CacheState
  | [], s => s
  | (tag, entry) :: rest, s =>
    if rest.length + 1 > MAX_CACHE_ENTRIES ∨
        s.currentCacheSize > MAX_CACHE_SIZE then
      if entry.promise.isSome then
        evictLoop rest s
      else
        evictLoop rest
          { imageCache := deleteTag s.imageCache tag,
            currentCacheSize := s.currentCacheSize - (entry.sizeBytes : Int) }
    else s

/-- evictLRUEntries (lines 38-62). -/
def evictLRUEntries (s : CacheState) : CacheState :=
  if s.imageCache.length ≤ MAX_CACHE_ENTRIES ∧
      s.currentCacheSize ≤ MAX_CACHE_SIZE then s
  else evictLoop (sortByAccessed s.imageCache) s

/-- Loop body of cleanupExpiredEntries (lines 69-82), iterating a snapshot
of Object.entries while deleting from the live table. -/
def cleanupLoop (now : Nat) :
    List (String × ImageCacheEntry) → CacheState → Nat → CacheState × Nat
  | [], s, cleaned => (s, cleaned)
  | (tag, entry) :: rest, s, cleaned =>
    if entry.promise.isSome then cleanupLoop now rest s cleaned
    else if now - entry.lastFetched > CACHE_DURATION then
      cleanupLoop now rest
        { imageCache := deleteTag s.imageCache tag,
          currentCacheSize := s.currentCacheSize - (entry.sizeBytes : Int) }
        (cleaned + 1)
    else cleanupLoop now rest s cleaned

/-- cleanupExpiredEntries (lines 65-85): returns the new state and the count
of removed entries. -/
def cleanupExpiredEntries (now : Nat) (s : CacheState) : CacheState × Nat :=
  cleanupLoop now s.imageCache s 0

/-- The seven characters removed by authHeader.slice(7). -/
def bearerPrefix : List Char := "Bearer ".data

/-- validateCacheApiAccess (lines 104-121).  cacheApiKey is
Deno.env.get CACHE_API_KEY (none when the variable is absent); the JS
falsiness test rejects both an absent and an empty value.  authHeader is
req.headers.get Authorization. -/
def validateCacheApiAccess (cacheApiKey : Option (List Char))
    (authHeader : Option (List Char)) : Bool :=
  match cacheApiKey with
  | none => false
  | some key =>
    if key = [] then false
    else
      match authHeader with
      | none => false
      | some h => bearerPrefix.isPrefixOf h && (h.drop 7 == key)

/-- Math.round (x / 1024) for a Nat x: JS rounds half toward positive
infinity, which for nonnegative x is floor ((x + 512) / 1024). -/
def roundDivKB (x : Nat) : Nat := (x + 512) / 1024

/-- Loop of the /api/cache/clear branch (lines 536-540): per key, add
sizeBytes to clearedSize, delete the key, bump clearedEntries. -/
def clearLoop :
    List (String × ImageCacheEntry) → Nat → Nat → Nat × Nat
  | [], clearedEntries, clearedSize => (clearedEntries, clearedSize)
  | (_, e) :: rest, clearedEntries, clearedSize =>
    clearLoop rest (clearedEntries + 1) (clearedSize + e.sizeBytes)

/-- The /api/cache/clear state mutation (lines 531-543): every entry is
deleted (pending or not), currentCacheSize is reset to 0, and the response
carries entriesCleared and sizeCleared = Math.round (clearedSize / 1024). -/
def cacheClear (s : CacheState) : CacheState × Nat × Nat :=
  let counts := clearLoop s.imageCache 0 0
  ({ imageCache := [], currentCacheSize := 0 }, counts.1, roundDivKB counts.2)

/-- One row of the /api/cache/status report (lines 557-566); the two
ISO-8601 date strings are pure formatting of lastFetched/lastAccessed and
are not modelled. -/
structure CacheEntryStatus where
  tag : String
  imageCount : Nat
  sizeKB : Nat
  ageSeconds : Nat
  expired : Bool
  hasActiveRequest : Bool
  deriving DecidableEq, Repr

/-- The /api/cache/status JSON body (lines 554-578). -/
structure CacheStatusDTO where
  cacheEntries : List CacheEntryStatus
  totalEntries : Nat
  totalSizeMB : ℚ
  maxSizeMB : ℚ
  maxEntries : Nat
  cacheDurationSeconds : Nat
  deriving DecidableEq, Repr

def cacheEntryStatus (now : Nat) (p : String × ImageCacheEntry) :
    CacheEntryStatus :=
  { tag := p.1,
    imageCount := p.2.count,
    sizeKB := roundDivKB p.2.sizeBytes,
    ageSeconds := (now - p.2.lastFetched) / 1000,
    expired := decide (now - p.2.lastFetched > CACHE_DURATION),
    hasActiveRequest := p.2.promise.isSome }

def cacheStatus (now : Nat) (s : CacheState) : CacheStatusDTO :=
  { cacheEntries := s.imageCache.map (cacheEntryStatus now),
    totalEntries := s.imageCache.length,
    totalSizeMB :=
      ((round ((s.currentCacheSize : ℚ) / 1024 / 1024 * 100) : ℤ) : ℚ) / 100,
    maxSizeMB := (MAX_CACHE_SIZE : ℚ) / 1024 / 1024,
    maxEntries := MAX_CACHE_ENTRIES,
    cacheDurationSeconds := CACHE_DURATION / 1000 }

/-- A request to the handler, restricted to the fields the cache-API
fragment reads. -/
structure AdminRequest where
  path : String
  authHeader : Option (List Char)
  deriving Repr

/-- Observable outcome of the cache-API fragment of handler
(lines 519-579).  unauthorized is the 401 JSON response carrying the
WWW-Authenticate Bearer challenge (lines 522-528); passthrough means the
request was not answered by this fragment and fell through to page
handling. -/
inductive AdminResponse where
  | unauthorized
  | clearOk (entriesCleared : Nat) (sizeClearedKB : Nat)
  | statusOk (report : CacheStatusDTO)
  | passthrough
  deriving DecidableEq, Repr

/-- pathname.startsWith of line 519, on the characters of the path. -/
def pathIsCacheApi (path : String) : Bool :=
  "/api/cache/".data.isPrefixOf path.data

/-- The cache-API fragment of handler (lines 514-579). -/
def handleCacheApi (cacheApiKey : Option (List Char)) (req : AdminRequest)
    (now : Nat) (s : CacheState) : CacheState × AdminResponse :=
  if pathIsCacheApi req.path then
    if !(validateCacheApiAccess cacheApiKey req.authHeader) then
      (s, .unauthorized)
    else if req.path = "/api/cache/clear" then
      let r := cacheClear s
      (r.1, .clearOk r.2.1 r.2.2)
    else if req.path = "/api/cache/status" then
      (s, .statusOk (cacheStatus now s))
    else (s, .passthrough)
  else (s, .passthrough)

/-- Outcome of the synchronous prefix of getCloudinaryImagesByTag
(lines 208-269), which runs without interleaving up to the function's only
suspension point. -/
inductive CallOutcome where
  | hit (images : List CloudinaryImage)
  | attached (fid : Nat)
  | initiated (fid : Nat)
  deriving DecidableEq, Repr

/-- Synchronous prefix of getCloudinaryImagesByTag (lines 208-269):
fresh-cache hit (213-217, note cached.images is an array and arrays are
always truthy), attach to a pending fetch (220-223), or store the
pending-marker entry (262-269) for a newly initiated fetch newFid.  The
limit argument of the source only parameterises the provider call and is
threaded by the trace layer below. -/
def getCloudinaryImagesByTagCall (tag : String) (now : Nat) (newFid : Nat)
    (s : CacheState) : CacheState × CallOutcome :=
  match lookupTag s.imageCache tag with
  | some cached =>
    if now - cached.lastFetched < CACHE_DURATION then
      ({ s with imageCache :=
          setTag s.imageCache tag ({ cached with lastAccessed := now }) },
       .hit cached.images)
    else
      match cached.promise with
      | some fid => (s, .attached fid)
      | none =>
        let marker : ImageCacheEntry :=
          { images := cached.images, promise := some newFid,
            lastFetched := cached.lastFetched, lastAccessed := now,
            count := cached.count, sizeBytes := cached.sizeBytes }
        ({ s with imageCache := setTag s.imageCache tag marker },
         .initiated newFid)
  | none =>
    let marker : ImageCacheEntry :=
      { images := [], promise := some newFid, lastFetched := 0,
        lastAccessed := now, count := 0, sizeBytes := 0 }
    ({ s with imageCache := setTag s.imageCache tag marker },
     .initiated newFid)

/-- Settlement of the provider promise of fetch fid for tag: the tail of the
inner IIFE on fulfilment (lines 231-258) or the .catch handler on rejection
(lines 272-287).  snapshot is the entry the initiating call captured as
cached before suspending; now is Date.now() at completion (line 232).
Returns the new state and the value of the promise chain handed to the
initiating caller, which on rejection degrades to the stale images when the
snapshot holds a non-empty list (281-284) and to the empty list otherwise
(286). -/
def fetchPromiseSettle (tag : String) (fid : Nat)
    (snapshot : Option ImageCacheEntry)
    (result : Except Unit (List CloudinaryImage)) (now : Nat)
    (s : CacheState) : CacheState × Except Unit (List CloudinaryImage) :=
  match result with
  | .ok images =>
    let dataSize := calculateImageDataSize images
    let size1 : Int :=
      match snapshot with
      | some c =>
        if c.sizeBytes ≠ 0 then s.currentCacheSize - (c.sizeBytes : Int)
        else s.currentCacheSize
      | none => s.currentCacheSize
    let s2 := evictLRUEntries
      { imageCache := s.imageCache, currentCacheSize := size1 + dataSize }
    let fresh : ImageCacheEntry :=
      { images := images, promise := none, lastFetched := now,
        lastAccessed := now, count := images.length, sizeBytes := dataSize }
    ({ s2 with imageCache := setTag s2.imageCache tag fresh },
     .ok images)
  | .error _ =>
    let s2 :=
      match lookupTag s.imageCache tag with
      | some c =>
        if c.promise = some fid then
          { s with
            imageCache := setTag s.imageCache tag ({ c with promise := none }) }
        else s
      | none => s
    match snapshot with
    | some c =>
      if c.images.length > 0 then (s2, .ok c.images) else (s2, .ok [])
    | none => (s2, .ok [])

/-- Value observed by a caller that attached to an already-pending fetch:
it returned the stored raw fetchPromise (lines 220-222, stored at 264), so
it sees the provider settlement itself, unguarded by the .catch chain of
line 272. -/
def attachedCallerResult (result : Except Unit (List CloudinaryImage)) :
    Except Unit (List CloudinaryImage) :=
  result

instance : DecidableEq (Except Unit (List CloudinaryImage)) := fun a b =>
  match a, b with
  | .ok x, .ok y =>
    if h : x = y then .isTrue (by rw [h]) else .isFalse (by simp [h])
  | .ok _, .error _ => .isFalse (by simp)
  | .error _, .ok _ => .isFalse (by simp)
  | .error x, .error y => .isTrue (by cases x; cases y; rfl)

/-- How a finished call to getCloudinaryImagesByTag obtained its value:
from a fresh cache hit, by initiating the fetch, or by attaching to an
already-pending fetch. -/
inductive CallKind where
  | hit
  | initiator
  | attached
  deriving DecidableEq, Repr

/-- An in-flight provider fetch: its identifier, the tag and limit it was
issued for, and the entry snapshot captured by the initiating call. -/
structure PendingFetch where
  fid : Nat
  tag : String
  limit : Nat
  snapshot : Option ImageCacheEntry
  deriving DecidableEq, Repr

/-- A caller suspended on fetch fid. -/
structure WaitingCaller where
  cid : Nat
  fid : Nat
  kind : CallKind
  deriving DecidableEq, Repr

/-- A caller whose getCloudinaryImagesByTag invocation has settled, with the
value its returned promise settled to (.error only ever arises for attached
callers, through the unguarded stored promise). -/
structure FinishedCaller where
  cid : Nat
  kind : CallKind
  result : Except Unit (List CloudinaryImage)
  deriving DecidableEq, Repr

/-- Whole-system state of the single-threaded event loop: the cache state
plus the bookkeeping of in-flight fetches and suspended callers. -/
structure Sys where
  state : CacheState
  fetches : List PendingFetch
  waiting : List WaitingCaller
  finished : List FinishedCaller
  nextFid : Nat
  deriving DecidableEq, Repr

/-- Atomic steps of the event loop.  call runs the synchronous prefix of
getCloudinaryImagesByTag; settle fires when the provider promise of fetch
fid settles; adminClear is the /api/cache/clear mutation (after its auth
gate); sweep is one run of the periodic cleanupExpiredEntries timer. -/
inductive Event where
  | call (cid : Nat) (tag : String) (limit : Nat) (now : Nat)
  | settle (fid : Nat) (result : Except Unit (List CloudinaryImage))
      (now : Nat)
  | adminClear
  | sweep (now : Nat)
  deriving DecidableEq, Repr

def findFetch (fetches : List PendingFetch) (fid : Nat) :
    Option PendingFetch :=
  match fetches with
  | [] => none
  | pf :: rest => if pf.fid = fid then some pf else findFetch rest fid

/-- One atomic step of the event loop. -/
def step (sys : Sys) (ev : Event) : Sys :=
  match ev with
  | .call cid tag limit now =>
    let snapshot := lookupTag sys.state.imageCache tag
    match getCloudinaryImagesByTagCall tag now sys.nextFid sys.state with
    | (s1, .hit images) =>
      { sys with
        state := s1
        finished := sys.finished ++ [⟨cid, .hit, .ok images⟩] }
    | (s1, .attached fid) =>
      { sys with
        state := s1
        waiting := sys.waiting ++ [⟨cid, fid, .attached⟩] }
    | (s1, .initiated fid) =>
      { sys with
        state := s1
        fetches := sys.fetches ++ [⟨fid, tag, limit, snapshot⟩]
        waiting := sys.waiting ++ [⟨cid, fid, .initiator⟩]
        nextFid := sys.nextFid + 1 }
  | .settle fid result now =>
    match findFetch sys.fetches fid with
    | none => sys
    | some pf =>
      let r := fetchPromiseSettle pf.tag fid pf.snapshot result now sys.state
      let done := (sys.waiting.filter (fun w => w.fid == fid)).map
        (fun w => ⟨w.cid, w.kind,
          match w.kind with
          | .initiator => r.2
          | _ => attachedCallerResult result⟩)
      { state := r.1
        fetches := sys.fetches.filter (fun pf2 => pf2.fid != fid)
        waiting := sys.waiting.filter (fun w => w.fid != fid)
        finished := sys.finished ++ done
        nextFid := sys.nextFid }
  | .adminClear =>
    { sys with state := (cacheClear sys.state).1 }
  | .sweep now =>
    { sys with state := (cleanupExpiredEntries now sys.state).1 }

def initialSys : Sys :=
  { state := { imageCache := [], currentCacheSize := 0 },
    fetches := [], waiting := [], finished := [], nextFid := 0 }

def runFrom (sys : Sys) (evs : List Event) : Sys :=
  evs.foldl step sys

def runTrace (evs : List Event) : Sys :=
  runFrom initialSys evs

/-- Per-entry size estimate plus counter-equals-sum, the size-accounting
invariant claimed by the specification. -/
def entrySizesSum (cache : List (String × ImageCacheEntry)) : Int :=
  (cache.map (fun p => (p.2.sizeBytes : Int))).sum

def SizeConsistent (s : CacheState) : Prop :=
  (∀ p ∈ s.imageCache, p.2.sizeBytes = calculateImageDataSize p.2.images) ∧
  s.currentCacheSize = entrySizesSum s.imageCache

instance (s : CacheState) : Decidable (SizeConsistent s) := by
  unfold SizeConsistent; infer_instance

/-- Distinct keys: the representation invariant of the association-list
model of a JS object. -/
def KeysNodup (s : CacheState) : Prop :=
  (s.imageCache.map Prod.fst).Nodup

instance (s : CacheState) : Decidable (KeysNodup s) := by
  unfold KeysNodup
  infer_instance

/-- Recorded size of the entry snapshot captured by a fetch, as the fetch
completion subtracts it (0 when no entry existed). -/
def snapshotSizeBytes : Option ImageCacheEntry → Nat
  | none => 0
  | some c => c.sizeBytes

/-- Total sizeBytes of all entries, as a Nat (used by the clear loop). -/
def natSizesSum (cache : List (String × ImageCacheEntry)) : Nat :=
  (cache.map (fun p => p.2.sizeBytes)).sum

/-- The success side condition: the entry presently recorded for the tag
still matches the snapshot the fetch captured, as is the case whenever no
admin clear ran while the fetch was in flight. -/
def SnapshotAccurate (s : CacheState) (tag : String)
    (snapshot : Option ImageCacheEntry) : Prop :=
  match lookupTag s.imageCache tag with
  | some m => m.sizeBytes = snapshotSizeBytes snapshot ∧ m.promise.isSome
  | none => snapshotSizeBytes snapshot = 0

/-- The placeholder entry stored at lines 262-269 when no previous entry
exists for the tag. -/
def missMarker (fid : Nat) (now : Nat) : ImageCacheEntry :=
  { images := [], promise := some fid, lastFetched := 0, lastAccessed := now,
    count := 0, sizeBytes := 0 }

/-- The placeholder entry stored at lines 262-269 when a stale entry c
exists for the tag. -/
def refetchMarker (c : ImageCacheEntry) (fid : Nat) (now : Nat) :
    ImageCacheEntry :=
  { images := c.images, promise := some fid, lastFetched := c.lastFetched,
    lastAccessed := now, count := c.count, sizeBytes := c.sizeBytes }

/-- Invariant backing the no-exception contract: every settled call that was
a cache hit or the fetch initiator carries a plain image list, and no
suspended caller is recorded as a hit. -/
def NoRejectInv (sys : Sys) : Prop :=
  (∀ fc ∈ sys.finished,
    (fc.kind = CallKind.hit ∨ fc.kind = CallKind.initiator) →
    ∃ l, fc.result = Except.ok l) ∧
  (∀ w ∈ sys.waiting, w.kind ≠ CallKind.hit)

/-- A sample image record (all fields concrete); the cache never inspects
these fields beyond counting. -/
def mkImage (n : Nat) : CloudinaryImage :=
  { public_id := "img", secure_url := "url", width := n, height := n,
    format := "jpg", resource_type := "image", created_at := "t",
    bytes := n }

/-- Twenty-five distinct gallery tags for the eviction-bound scenario. -/
def tags25 : List String :=
  ["g01", "g02", "g03", "g04", "g05", "g06", "g07", "g08", "g09", "g10",
   "g11", "g12", "g13", "g14", "g15", "g16", "g17", "g18", "g19", "g20",
   "g21", "g22", "g23", "g24", "g25"]

/-- Sequentially populate 25 distinct tags: each call initiates a fetch that
succeeds with one image before the next call arrives. -/
def evs25 : List Event :=
  (List.range 25).flatMap (fun i =>
    [.call i (tags25.getD i "") 400 (1000000 + 1000 * i),
     .settle i (.ok [mkImage i]) (1000000 + 1000 * i + 500)])

/-- Two concurrent callers for an uncached tag whose fetch rejects: caller 1
initiates, caller 2 attaches to the stored promise. -/
def evsTwoCallersFail : List Event :=
  [.call 1 "alpha" 400 300000, .call 2 "alpha" 400 300001,
   .settle 0 (.error ()) 300002]

/-- Same shape at other instants, used for the coalescing counterexample. -/
def evsCoalesceFail : List Event :=
  [.call 3 "beta" 400 600000, .call 4 "beta" 400 600001,
   .settle 0 (.error ()) 600002]

/-- A failing refetch scenario backing the no-exception witness: one caller
initiates a fetch that rejects. -/
def evsLoneFail : List Event :=
  [.call 7 "gamma" 400 400000, .settle 0 (.error ()) 400001]

/-- Populate tag delta, let it expire, start a refetch, clear the cache
while the refetch is in flight, then let the refetch succeed with two
images. -/
def evsClearDuringFlight : List Event :=
  [.call 1 "delta" 400 1000000, .settle 0 (.ok [mkImage 1]) 1000001,
   .call 2 "delta" 400 1400000, .adminClear,
   .settle 1 (.ok [mkImage 1, mkImage 2]) 1400002]

/-- The same clear-during-refetch interleaving on tag eps, for the
repopulation claim. -/
def evsClearFlightRepop : List Event :=
  [.call 3 "eps" 400 2000000, .settle 0 (.ok [mkImage 3]) 2000001,
   .call 4 "eps" 400 2400000, .adminClear,
   .settle 1 (.ok [mkImage 3, mkImage 4]) 2400002]

/-- An entry with a pending fetch, chronologically oldest by access time. -/
def pendingEntry (i : Nat) : ImageCacheEntry :=
  { images := [mkImage i], promise := some i, lastFetched := 1000000,
    lastAccessed := i, count := 1, sizeBytes := 1024 }

/-- A settled entry, accessed later than every pendingEntry. -/
def settledEntry (i : Nat) : ImageCacheEntry :=
  { images := [mkImage i], promise := none, lastFetched := 1000000,
    lastAccessed := 100 + i, count := 1, sizeBytes := 1024 }

/-- Twenty-two entries, the two oldest-accessed of which have pending
fetches: the state reached when, with a full cache, two fetches for new
tags are in flight and every settled entry has been touched since. -/
def overfullPendingState : CacheState :=
  { imageCache :=
      (List.range 2).map (fun i => (tags25.getD i "", pendingEntry i)) ++
      (List.range 20).map (fun i => (tags25.getD (i + 2) "", settledEntry (i + 2))),
    currentCacheSize := 22 * 1024 }

/-- Twenty-one settled entries: eviction must remove the oldest-accessed. -/
def overfullSettledState : CacheState :=
  { imageCache :=
      (List.range 21).map (fun i => (tags25.getD i "", settledEntry i)),
    currentCacheSize := 21 * 1024 }

/-- A one-entry state whose entry has a pending fetch, for witnesses. -/
def pendingDemoState : CacheState :=
  { imageCache := [("alpha", pendingEntry 0)], currentCacheSize := 1024 }

section AssocLemmas

variable {cache : List (String × ImageCacheEntry)} {tag t : String}
variable {e e0 m : ImageCacheEntry} {p : String × ImageCacheEntry}

@[simp]
theorem lookupTag_nil : lookupTag [] tag = none := rfl

@[simp]
theorem lookupTag_cons :
    lookupTag ((t, e0) :: cache) tag =
      if t = tag then some e0 else lookupTag cache tag := rfl

@[simp]
theorem setTag_nil : setTag [] tag e = [(tag, e)] := rfl

@[simp]
theorem setTag_cons :
    setTag ((t, e0) :: cache) tag e =
      if t = tag then (t, e) :: cache else (t, e0) :: setTag cache tag e := rfl

theorem lookupTag_setTag_self :
    lookupTag (setTag cache tag e) tag = some e := by
  induction cache with
  | nil => simp
  | cons hd tl ih =>
    obtain ⟨t0, e1⟩ := hd
    by_cases h : t0 = tag <;> simp [h, ih]

theorem lookupTag_setTag_ne (h : t ≠ tag) :
    lookupTag (setTag cache tag e) t = lookupTag cache t := by
  induction cache with
  | nil => simp [Ne.symm h]
  | cons hd tl ih =>
    obtain ⟨t0, e1⟩ := hd
    by_cases h0 : t0 = tag
    · subst h0
      simp [Ne.symm h]
    · by_cases h1 : t0 = t <;> simp [h0, h1, ih, h]

theorem lookupTag_deleteTag_ne (h : t ≠ tag) :
    lookupTag (deleteTag cache t) tag = lookupTag cache tag := by
  induction cache with
  | nil => rfl
  | cons hd tl ih =>
    obtain ⟨t0, e1⟩ := hd
    simp only [deleteTag, List.filter_cons] at ih ⊢
    by_cases h0 : t0 = t
    · subst h0
      have ht : t0 ≠ tag := h
      simp [bne_iff_ne, ht, ih]
    · by_cases h1 : t0 = tag <;> simp [bne_iff_ne, h0, h1, ih, Ne.symm h]

theorem mem_deleteTag :
    p ∈ deleteTag cache t ↔ p ∈ cache ∧ p.1 ≠ t := by
  simp [deleteTag, List.mem_filter, bne_iff_ne]

theorem mem_of_lookupTag_eq_some (h : lookupTag cache tag = some e) :
    (tag, e) ∈ cache := by
  induction cache with
  | nil => simp at h
  | cons hd tl ih =>
    obtain ⟨t0, e1⟩ := hd
    by_cases h0 : t0 = tag
    · subst h0
      simp at h
      simp [h]
    · simp [h0] at h
      simp [ih h]

theorem lookupTag_eq_some_of_mem
    (hnd : (cache.map Prod.fst).Nodup) (hm : (tag, e) ∈ cache) :
    lookupTag cache tag = some e := by
  induction cache with
  | nil => simp at hm
  | cons hd tl ih =>
    obtain ⟨t0, e1⟩ := hd
    simp only [List.map_cons, List.nodup_cons] at hnd
    rcases List.mem_cons.mp hm with h | h
    · cases h
      simp
    · have ht : t0 ≠ tag := by
        intro hEq
        exact hnd.1 (hEq ▸ (List.mem_map.mpr ⟨_, h, rfl⟩))
      simp [ht, ih hnd.2 h]

theorem keys_deleteTag_sublist :
    ((deleteTag cache t).map Prod.fst).Sublist (cache.map Prod.fst) :=
  (List.filter_sublist cache).map Prod.fst

theorem keys_nodup_deleteTag (hnd : (cache.map Prod.fst).Nodup) :
    ((deleteTag cache t).map Prod.fst).Nodup :=
  hnd.sublist keys_deleteTag_sublist

theorem keys_setTag (cache : List (String × ImageCacheEntry)) (tag : String)
    (e : ImageCacheEntry) :
    (setTag cache tag e).map Prod.fst =
      if lookupTag cache tag = none then cache.map Prod.fst ++ [tag]
      else cache.map Prod.fst := by
  induction cache with
  | nil => simp
  | cons hd tl ih =>
    obtain ⟨t0, e1⟩ := hd
    by_cases h0 : t0 = tag
    · simp [h0]
    · by_cases hl : lookupTag tl tag = none <;> simp [h0, hl, ih]

theorem keys_nodup_setTag (hnd : (cache.map Prod.fst).Nodup) :
    ((setTag cache tag e).map Prod.fst).Nodup := by
  induction cache with
  | nil => simp
  | cons hd tl ih =>
    obtain ⟨t0, e1⟩ := hd
    simp only [List.map_cons, List.nodup_cons] at hnd
    by_cases h0 : t0 = tag
    · simp only [setTag_cons, if_pos h0, List.map_cons, List.nodup_cons]
      exact ⟨hnd.1, hnd.2⟩
    · have hkeys : (setTag tl tag e).map Prod.fst =
          if lookupTag tl tag = none then tl.map Prod.fst ++ [tag]
          else tl.map Prod.fst := keys_setTag tl tag e
      simp only [setTag_cons, if_neg h0, List.map_cons, List.nodup_cons]
      refine ⟨?_, ih hnd.2⟩
      rw [hkeys]
      by_cases hl : lookupTag tl tag = none
      · simp only [if_pos hl, List.mem_append, List.mem_singleton]
        rintro (h | rfl)
        · exact hnd.1 h
        · exact h0 rfl
      · simp only [if_neg hl]
        exact hnd.1

end AssocLemmas

section SumSortLemmas

variable {cache : List (String × ImageCacheEntry)}
variable {l : List (String × ImageCacheEntry)} {tag t : String}
variable {e m x : ImageCacheEntry} {p : String × ImageCacheEntry}

@[simp]
theorem entrySizesSum_nil : entrySizesSum [] = 0 := rfl

@[simp]
theorem entrySizesSum_cons (p : String × ImageCacheEntry) :
    entrySizesSum (p :: cache) = (p.2.sizeBytes : Int) + entrySizesSum cache := by
  simp [entrySizesSum]

theorem lookupTag_deleteTag_self :
    lookupTag (deleteTag cache t) t = none := by
  induction cache with
  | nil => rfl
  | cons hd tl ih =>
    obtain ⟨t0, e1⟩ := hd
    by_cases h0 : t0 = t <;>
      simp [deleteTag, List.filter_cons, bne_iff_ne, h0, ih] at ih ⊢

theorem deleteTag_eq_self_of_not_mem (h : t ∉ cache.map Prod.fst) :
    deleteTag cache t = cache := by
  refine List.filter_eq_self.mpr (fun p hp => ?_)
  have : p.1 ≠ t := fun hEq => h (hEq ▸ List.mem_map.mpr ⟨p, hp, rfl⟩)
  simpa [bne_iff_ne] using this

theorem entrySizesSum_deleteTag (hnd : (cache.map Prod.fst).Nodup)
    (hm : (t, e) ∈ cache) :
    entrySizesSum (deleteTag cache t) = entrySizesSum cache - (e.sizeBytes : Int) := by
  induction cache with
  | nil => simp at hm
  | cons hd tl ih =>
    obtain ⟨t0, e1⟩ := hd
    simp only [List.map_cons, List.nodup_cons] at hnd
    by_cases h0 : t0 = t
    · subst h0
      have hdel : deleteTag tl t0 = tl :=
        deleteTag_eq_self_of_not_mem hnd.1
      have he : e1 = e := by
        rcases List.mem_cons.mp hm with h | h
        · cases h; rfl
        · exact absurd (List.mem_map.mpr ⟨_, h, rfl⟩) hnd.1
      subst he
      simp only [deleteTag, List.filter_cons, bne_self_eq_false]
      simp only [deleteTag] at hdel
      rw [hdel]
      simp [entrySizesSum]
    · have hm2 : (t, e) ∈ tl := by
        rcases List.mem_cons.mp hm with h | h
        · cases h; exact absurd rfl h0
        · exact h
      simp only [deleteTag, List.filter_cons]
      have hne : (t0 != t) = true := by simpa [bne_iff_ne] using h0
      rw [hne]
      simp only [if_true, cond_true]
      have := ih hnd.2 hm2
      simp only [deleteTag] at this
      simp [entrySizesSum_cons, this]
      ring

theorem entrySizesSum_setTag_of_lookup_some
    (hm : lookupTag cache tag = some m) :
    entrySizesSum (setTag cache tag x) =
      entrySizesSum cache - (m.sizeBytes : Int) + (x.sizeBytes : Int) := by
  induction cache with
  | nil => simp at hm
  | cons hd tl ih =>
    obtain ⟨t0, e1⟩ := hd
    by_cases h0 : t0 = tag
    · simp only [lookupTag_cons, if_pos h0] at hm
      cases hm
      simp [h0]
      ring
    · simp only [lookupTag_cons, if_neg h0] at hm
      simp [h0, ih hm]
      ring

theorem entrySizesSum_setTag_of_lookup_none
    (hm : lookupTag cache tag = none) :
    entrySizesSum (setTag cache tag x) =
      entrySizesSum cache + (x.sizeBytes : Int) := by
  induction cache with
  | nil => simp
  | cons hd tl ih =>
    obtain ⟨t0, e1⟩ := hd
    by_cases h0 : t0 = tag
    · simp [h0] at hm
    · simp only [lookupTag_cons, if_neg h0] at hm
      simp [h0, ih hm]
      ring

theorem mem_setTag_cases (hm : p ∈ setTag cache tag e) :
    p = (tag, e) ∨ p ∈ cache := by
  induction cache with
  | nil => simpa using hm
  | cons hd tl ih =>
    obtain ⟨t0, e1⟩ := hd
    by_cases h0 : t0 = tag
    · subst h0
      simp only [setTag_cons, if_pos rfl] at hm
      rcases List.mem_cons.mp hm with h | h
      · exact Or.inl h
      · exact Or.inr (List.mem_cons_of_mem _ h)
    · simp only [setTag_cons, if_neg h0] at hm
      rcases List.mem_cons.mp hm with h | h
      · exact Or.inr (h ▸ List.mem_cons_self _ _)
      · rcases ih h with h2 | h2
        · exact Or.inl h2
        · exact Or.inr (List.mem_cons_of_mem _ h2)

theorem insertByAccessed_perm (x : String × ImageCacheEntry)
    (l : List (String × ImageCacheEntry)) :
    (insertByAccessed x l).Perm (x :: l) := by
  induction l with
  | nil => simp [insertByAccessed]
  | cons y ys ih =>
    by_cases h : y.2.lastAccessed < x.2.lastAccessed
    · simp only [insertByAccessed, if_pos h]
      exact (ih.cons y).trans (List.Perm.swap x y ys)
    · simp [insertByAccessed, if_neg h]

theorem sortByAccessed_perm (l : List (String × ImageCacheEntry)) :
    (sortByAccessed l).Perm l := by
  induction l with
  | nil => simp [sortByAccessed]
  | cons x xs ih =>
    exact (insertByAccessed_perm x (sortByAccessed xs)).trans (ih.cons x)

theorem mem_sortByAccessed :
    p ∈ sortByAccessed l ↔ p ∈ l :=
  (sortByAccessed_perm l).mem_iff

theorem keys_nodup_sortByAccessed (hnd : (l.map Prod.fst).Nodup) :
    ((sortByAccessed l).map Prod.fst).Nodup :=
  (((sortByAccessed_perm l).map Prod.fst).nodup_iff).mpr hnd

end SumSortLemmas

section LoopLemmas

variable {s : CacheState} {tag : String} {e : ImageCacheEntry}

theorem evictLoop_lookup_pending
    (l : List (String × ImageCacheEntry)) (s : CacheState)
    (hs : lookupTag s.imageCache tag = some e) (hp : e.promise.isSome)
    (hl : ∀ p ∈ l, p.1 = tag → p.2 = e) :
    lookupTag (evictLoop l s).imageCache tag = some e := by
  induction l generalizing s with
  | nil => simpa [evictLoop] using hs
  | cons hd rest ih =>
    obtain ⟨t0, e0⟩ := hd
    simp only [evictLoop]
    split
    · by_cases hp0 : e0.promise.isSome
      · simp only [hp0, if_pos]
        exact ih _ hs (fun p hm h => hl p (List.mem_cons_of_mem _ hm) h)
      · have ht : t0 ≠ tag := by
          intro hEq
          have h2 : e0 = e := hl (t0, e0) (List.mem_cons_self _ _) hEq
          rw [h2] at hp0
          exact hp0 hp
        simp only [hp0, if_neg, Bool.false_eq_true, not_false_iff]
        refine ih _ ?_ (fun p hm h => hl p (List.mem_cons_of_mem _ hm) h)
        show lookupTag (deleteTag s.imageCache t0) tag = some e
        rw [lookupTag_deleteTag_ne ht]
        exact hs
    · exact hs

theorem evictLoop_lookup_none
    (l : List (String × ImageCacheEntry)) (s : CacheState)
    (hs : lookupTag s.imageCache tag = none) :
    lookupTag (evictLoop l s).imageCache tag = none := by
  induction l generalizing s with
  | nil => simpa [evictLoop] using hs
  | cons hd rest ih =>
    obtain ⟨t0, e0⟩ := hd
    simp only [evictLoop]
    split
    · by_cases hp0 : e0.promise.isSome
      · simp only [hp0, if_pos]
        exact ih _ hs
      · simp only [hp0, if_neg, Bool.false_eq_true, not_false_iff]
        refine ih _ ?_
        show lookupTag (deleteTag s.imageCache t0) tag = none
        by_cases ht : t0 = tag
        · subst ht
          exact lookupTag_deleteTag_self
        · rw [lookupTag_deleteTag_ne ht]
          exact hs
    · exact hs

theorem evictLoop_wf
    (l : List (String × ImageCacheEntry)) (s : CacheState)
    (hnd : (s.imageCache.map Prod.fst).Nodup)
    (hsub : ∀ p ∈ l, p ∈ s.imageCache)
    (hlnd : (l.map Prod.fst).Nodup) :
    ((evictLoop l s).imageCache.map Prod.fst).Nodup ∧
    (∀ p ∈ (evictLoop l s).imageCache, p ∈ s.imageCache) ∧
    (evictLoop l s).currentCacheSize - entrySizesSum (evictLoop l s).imageCache
      = s.currentCacheSize - entrySizesSum s.imageCache := by
  induction l generalizing s with
  | nil => exact ⟨hnd, fun p hp => hp, rfl⟩
  | cons hd rest ih =>
    obtain ⟨t0, e0⟩ := hd
    simp only [evictLoop]
    split
    · by_cases hp0 : e0.promise.isSome
      · simp only [hp0, if_pos]
        refine ih s hnd (fun p hm => hsub p (List.mem_cons_of_mem _ hm)) ?_
        simp only [List.map_cons, List.nodup_cons] at hlnd
        exact hlnd.2
      · simp only [hp0, if_neg, Bool.false_eq_true, not_false_iff]
        simp only [List.map_cons, List.nodup_cons] at hlnd
        have hmem0 : (t0, e0) ∈ s.imageCache :=
          hsub _ (List.mem_cons_self _ _)
        have hsub2 : ∀ p ∈ rest, p ∈ deleteTag s.imageCache t0 := by
          intro p hm
          refine mem_deleteTag.mpr ⟨hsub p (List.mem_cons_of_mem _ hm), ?_⟩
          intro hEq
          exact hlnd.1 (hEq ▸ List.mem_map.mpr ⟨p, hm, rfl⟩)
        have hsum := entrySizesSum_deleteTag hnd hmem0
        obtain ⟨c1, c2, c3⟩ := ih
          { imageCache := deleteTag s.imageCache t0,
            currentCacheSize := s.currentCacheSize - (e0.sizeBytes : Int) }
          (keys_nodup_deleteTag hnd) hsub2 hlnd.2
        refine ⟨c1, fun p hp => mem_deleteTag.mp (c2 p hp) |>.1, ?_⟩
        rw [c3]
        simp only [hsum]
        ring
    · exact ⟨hnd, fun p hp => hp, rfl⟩

theorem cleanupLoop_lookup_pending
    (now : Nat) (l : List (String × ImageCacheEntry)) (s : CacheState)
    (cleaned : Nat)
    (hs : lookupTag s.imageCache tag = some e) (hp : e.promise.isSome)
    (hl : ∀ p ∈ l, p.1 = tag → p.2 = e) :
    lookupTag (cleanupLoop now l s cleaned).1.imageCache tag = some e := by
  induction l generalizing s cleaned with
  | nil => simpa [cleanupLoop] using hs
  | cons hd rest ih =>
    obtain ⟨t0, e0⟩ := hd
    simp only [cleanupLoop]
    by_cases hp0 : e0.promise.isSome
    · simp only [hp0, if_pos]
      exact ih _ _ hs (fun p hm h => hl p (List.mem_cons_of_mem _ hm) h)
    · simp only [hp0, if_neg, Bool.false_eq_true, not_false_iff]
      split
      · have ht : t0 ≠ tag := by
          intro hEq
          have h2 : e0 = e := hl (t0, e0) (List.mem_cons_self _ _) hEq
          rw [h2] at hp0
          exact hp0 hp
        refine ih _ _ ?_ (fun p hm h => hl p (List.mem_cons_of_mem _ hm) h)
        show lookupTag (deleteTag s.imageCache t0) tag = some e
        rw [lookupTag_deleteTag_ne ht]
        exact hs
      · exact ih _ _ hs (fun p hm h => hl p (List.mem_cons_of_mem _ hm) h)

theorem cleanupLoop_wf
    (now : Nat) (l : List (String × ImageCacheEntry)) (s : CacheState)
    (cleaned : Nat)
    (hnd : (s.imageCache.map Prod.fst).Nodup)
    (hsub : ∀ p ∈ l, p ∈ s.imageCache)
    (hlnd : (l.map Prod.fst).Nodup) :
    (((cleanupLoop now l s cleaned).1.imageCache.map Prod.fst).Nodup) ∧
    (∀ p ∈ (cleanupLoop now l s cleaned).1.imageCache, p ∈ s.imageCache) ∧
    (cleanupLoop now l s cleaned).1.currentCacheSize -
        entrySizesSum (cleanupLoop now l s cleaned).1.imageCache
      = s.currentCacheSize - entrySizesSum s.imageCache := by
  induction l generalizing s cleaned with
  | nil => exact ⟨hnd, fun p hp => hp, rfl⟩
  | cons hd rest ih =>
    obtain ⟨t0, e0⟩ := hd
    simp only [cleanupLoop]
    by_cases hp0 : e0.promise.isSome
    · simp only [hp0, if_pos]
      refine ih s cleaned hnd (fun p hm => hsub p (List.mem_cons_of_mem _ hm)) ?_
      simp only [List.map_cons, List.nodup_cons] at hlnd
      exact hlnd.2
    · simp only [hp0, if_neg, Bool.false_eq_true, not_false_iff]
      simp only [List.map_cons, List.nodup_cons] at hlnd
      split
      · have hmem0 : (t0, e0) ∈ s.imageCache :=
          hsub _ (List.mem_cons_self _ _)
        have hsub2 : ∀ p ∈ rest, p ∈ deleteTag s.imageCache t0 := by
          intro p hm
          refine mem_deleteTag.mpr ⟨hsub p (List.mem_cons_of_mem _ hm), ?_⟩
          intro hEq
          exact hlnd.1 (hEq ▸ List.mem_map.mpr ⟨p, hm, rfl⟩)
        have hsum := entrySizesSum_deleteTag hnd hmem0
        obtain ⟨c1, c2, c3⟩ := ih
          { imageCache := deleteTag s.imageCache t0,
            currentCacheSize := s.currentCacheSize - (e0.sizeBytes : Int) }
          (cleaned + 1) (keys_nodup_deleteTag hnd) hsub2 hlnd.2
        refine ⟨c1, fun p hp => mem_deleteTag.mp (c2 p hp) |>.1, ?_⟩
        rw [c3]
        simp only [hsum]
        ring
      · exact ih s cleaned hnd
          (fun p hm => hsub p (List.mem_cons_of_mem _ hm)) hlnd.2

theorem evictLRUEntries_lookup_pending (s : CacheState)
    (hnd : KeysNodup s)
    (hs : lookupTag s.imageCache tag = some e) (hp : e.promise.isSome) :
    lookupTag (evictLRUEntries s).imageCache tag = some e := by
  unfold evictLRUEntries
  split
  · exact hs
  · refine evictLoop_lookup_pending _ _ hs hp ?_
    intro p hm hEq
    have hmem : p ∈ s.imageCache := mem_sortByAccessed.mp hm
    obtain ⟨pt, pe⟩ := p
    cases hEq
    have h3 := lookupTag_eq_some_of_mem hnd hmem
    rw [hs] at h3
    exact (Option.some_inj.mp h3).symm

theorem evictLRUEntries_lookup_none (s : CacheState)
    (hs : lookupTag s.imageCache tag = none) :
    lookupTag (evictLRUEntries s).imageCache tag = none := by
  unfold evictLRUEntries
  split
  · exact hs
  · exact evictLoop_lookup_none _ _ hs

theorem evictLRUEntries_wf (s : CacheState) (hnd : KeysNodup s) :
    KeysNodup (evictLRUEntries s) ∧
    (∀ p ∈ (evictLRUEntries s).imageCache, p ∈ s.imageCache) ∧
    (evictLRUEntries s).currentCacheSize -
        entrySizesSum (evictLRUEntries s).imageCache
      = s.currentCacheSize - entrySizesSum s.imageCache := by
  unfold evictLRUEntries
  split
  · exact ⟨hnd, fun p hp => hp, rfl⟩
  · exact evictLoop_wf _ _ hnd (fun p hm => mem_sortByAccessed.mp hm)
      (keys_nodup_sortByAccessed hnd)

theorem cleanupExpiredEntries_lookup_pending (s : CacheState) (now : Nat)
    (hnd : KeysNodup s)
    (hs : lookupTag s.imageCache tag = some e) (hp : e.promise.isSome) :
    lookupTag (cleanupExpiredEntries now s).1.imageCache tag = some e := by
  refine cleanupLoop_lookup_pending now _ _ _ hs hp ?_
  intro p hm hEq
  obtain ⟨pt, pe⟩ := p
  cases hEq
  have h3 := lookupTag_eq_some_of_mem hnd hm
  rw [hs] at h3
  exact (Option.some_inj.mp h3).symm

theorem cleanupExpiredEntries_wf (s : CacheState) (now : Nat)
    (hnd : KeysNodup s) :
    KeysNodup (cleanupExpiredEntries now s).1 ∧
    (∀ p ∈ (cleanupExpiredEntries now s).1.imageCache, p ∈ s.imageCache) ∧
    (cleanupExpiredEntries now s).1.currentCacheSize -
        entrySizesSum (cleanupExpiredEntries now s).1.imageCache
      = s.currentCacheSize - entrySizesSum s.imageCache :=
  cleanupLoop_wf now _ _ _ hnd (fun _ hp => hp) hnd

theorem evictLRUEntries_nil (n : Int) :
    evictLRUEntries { imageCache := [], currentCacheSize := n } =
      { imageCache := [], currentCacheSize := n } := by
  unfold evictLRUEntries
  split
  · rfl
  · rfl

end LoopLemmas

section OpLemmas

theorem clearLoop_spec (l : List (String × ImageCacheEntry)) (a b : Nat) :
    clearLoop l a b = (a + l.length, b + natSizesSum l) := by
  induction l generalizing a b with
  | nil => simp [clearLoop, natSizesSum]
  | cons hd tl ih =>
    obtain ⟨t0, e0⟩ := hd
    simp only [clearLoop, ih, natSizesSum, List.map_cons, List.sum_cons,
      List.length_cons, Prod.mk.injEq]
    omega

theorem cacheClear_spec (s : CacheState) :
    cacheClear s =
      ({ imageCache := [], currentCacheSize := 0 }, s.imageCache.length,
        roundDivKB (natSizesSum s.imageCache)) := by
  simp [cacheClear, clearLoop_spec]

theorem fetchPromiseSettle_snd_ok (tag : String) (fid : Nat)
    (snapshot : Option ImageCacheEntry)
    (result : Except Unit (List CloudinaryImage)) (now : Nat)
    (s : CacheState) :
    ∃ l, (fetchPromiseSettle tag fid snapshot result now s).2 = Except.ok l := by
  cases result with
  | ok imgs => exact ⟨imgs, rfl⟩
  | error e =>
    cases snapshot with
    | none => exact ⟨[], rfl⟩
    | some c =>
      simp only [fetchPromiseSettle]
      split
      · exact ⟨c.images, rfl⟩
      · exact ⟨[], rfl⟩

theorem wf_setTag_copy (s : CacheState) (tag : String)
    (m x : ImageCacheEntry)
    (hnd : KeysNodup s) (hsc : SizeConsistent s)
    (hm : lookupTag s.imageCache tag = some m)
    (himg : x.images = m.images) (hsize : x.sizeBytes = m.sizeBytes) :
    KeysNodup { s with imageCache := setTag s.imageCache tag x } ∧
    SizeConsistent { s with imageCache := setTag s.imageCache tag x } := by
  refine ⟨keys_nodup_setTag hnd, ?_, ?_⟩
  · intro p hp
    rcases mem_setTag_cases hp with h | h
    · subst h
      have h2 := hsc.1 (tag, m) (mem_of_lookupTag_eq_some hm)
      simp only at h2 ⊢
      rw [hsize, himg, h2]
    · exact hsc.1 p h
  · show s.currentCacheSize = entrySizesSum (setTag s.imageCache tag x)
    rw [entrySizesSum_setTag_of_lookup_some hm, hsize, hsc.2]
    ring

theorem wf_setTag_zero (s : CacheState) (tag : String)
    (x : ImageCacheEntry)
    (hnd : KeysNodup s) (hsc : SizeConsistent s)
    (hm : lookupTag s.imageCache tag = none)
    (himg : x.images = []) (hsize : x.sizeBytes = 0) :
    KeysNodup { s with imageCache := setTag s.imageCache tag x } ∧
    SizeConsistent { s with imageCache := setTag s.imageCache tag x } := by
  refine ⟨keys_nodup_setTag hnd, ?_, ?_⟩
  · intro p hp
    rcases mem_setTag_cases hp with h | h
    · subst h
      simp only
      rw [hsize, himg]
      rfl
    · exact hsc.1 p h
  · show s.currentCacheSize = entrySizesSum (setTag s.imageCache tag x)
    rw [entrySizesSum_setTag_of_lookup_none hm, hsize, hsc.2]
    simp

theorem getCall_preserves_wf (tag : String) (now newFid : Nat)
    (s : CacheState) (hnd : KeysNodup s) (hsc : SizeConsistent s) :
    KeysNodup (getCloudinaryImagesByTagCall tag now newFid s).1 ∧
    SizeConsistent (getCloudinaryImagesByTagCall tag now newFid s).1 := by
  unfold getCloudinaryImagesByTagCall
  cases hlook : lookupTag s.imageCache tag with
  | none =>
    dsimp only
    exact wf_setTag_zero s tag _ hnd hsc hlook rfl rfl
  | some cached =>
    dsimp only
    split
    · exact wf_setTag_copy s tag cached _ hnd hsc hlook rfl rfl
    · cases hp : cached.promise with
      | some fid => exact ⟨hnd, hsc⟩
      | none =>
        dsimp only
        exact wf_setTag_copy s tag cached _ hnd hsc hlook rfl rfl

theorem fetchFailure_preserves_wf (tag : String) (fid : Nat)
    (snapshot : Option ImageCacheEntry) (err : Unit) (now : Nat)
    (s : CacheState) (hnd : KeysNodup s) (hsc : SizeConsistent s) :
    KeysNodup (fetchPromiseSettle tag fid snapshot (.error err) now s).1 ∧
    SizeConsistent (fetchPromiseSettle tag fid snapshot (.error err) now s).1 := by
  have hcore : ∀ s2 : CacheState,
      s2 = (match lookupTag s.imageCache tag with
        | some c =>
          if c.promise = some fid then
            { s with
              imageCache := setTag s.imageCache tag
                ({ c with promise := none }) }
          else s
        | none => s) →
      KeysNodup s2 ∧ SizeConsistent s2 := by
    intro s2 hs2
    cases hlook : lookupTag s.imageCache tag with
    | none =>
      rw [hlook] at hs2
      dsimp only at hs2
      exact hs2 ▸ ⟨hnd, hsc⟩
    | some c =>
      rw [hlook] at hs2
      dsimp only at hs2
      by_cases hfid : c.promise = some fid
      · rw [if_pos hfid] at hs2
        exact hs2 ▸ wf_setTag_copy s tag c _ hnd hsc hlook rfl rfl
      · rw [if_neg hfid] at hs2
        exact hs2 ▸ ⟨hnd, hsc⟩
  cases snapshot with
  | none =>
    exact hcore _ rfl
  | some c =>
    simp only [fetchPromiseSettle]
    split
    · exact hcore _ rfl
    · exact hcore _ rfl

theorem fetchSuccess_core (tag : String) (imgs : List CloudinaryImage)
    (now : Nat) (s : CacheState) (snapSize : Nat) (counter1 : Int)
    (hnd : KeysNodup s) (hsc : SizeConsistent s)
    (hcounter : counter1 = s.currentCacheSize - (snapSize : Int) +
      (calculateImageDataSize imgs : Int))
    (hsnap : match lookupTag s.imageCache tag with
             | some m => m.sizeBytes = snapSize ∧ m.promise.isSome = true
             | none => snapSize = 0) :
    KeysNodup
      { imageCache :=
          setTag (evictLRUEntries
            { imageCache := s.imageCache,
              currentCacheSize := counter1 }).imageCache tag
            { images := imgs, promise := none, lastFetched := now,
              lastAccessed := now, count := imgs.length,
              sizeBytes := calculateImageDataSize imgs },
        currentCacheSize := (evictLRUEntries
            { imageCache := s.imageCache,
              currentCacheSize := counter1 }).currentCacheSize } ∧
    SizeConsistent
      { imageCache :=
          setTag (evictLRUEntries
            { imageCache := s.imageCache,
              currentCacheSize := counter1 }).imageCache tag
            { images := imgs, promise := none, lastFetched := now,
              lastAccessed := now, count := imgs.length,
              sizeBytes := calculateImageDataSize imgs },
        currentCacheSize := (evictLRUEntries
            { imageCache := s.imageCache,
              currentCacheSize := counter1 }).currentCacheSize } := by
  have hnd1 : KeysNodup
      { imageCache := s.imageCache, currentCacheSize := counter1 } := hnd
  obtain ⟨nd2, sub2, delta2⟩ := evictLRUEntries_wf
    { imageCache := s.imageCache, currentCacheSize := counter1 } hnd1
  set sEv := evictLRUEntries
    { imageCache := s.imageCache, currentCacheSize := counter1 } with hEv
  refine ⟨keys_nodup_setTag nd2, ?_, ?_⟩
  · intro p hp
    rcases mem_setTag_cases hp with h | h
    · subst h
      rfl
    · exact hsc.1 p (sub2 p h)
  · have hd2 : sEv.currentCacheSize - entrySizesSum sEv.imageCache =
        counter1 - entrySizesSum s.imageCache := delta2
    have hsum : s.currentCacheSize = entrySizesSum s.imageCache := hsc.2
    dsimp only
    cases hlook : lookupTag s.imageCache tag with
    | some m =>
      rw [hlook] at hsnap
      have hm2 : lookupTag sEv.imageCache tag = some m :=
        evictLRUEntries_lookup_pending
          { imageCache := s.imageCache, currentCacheSize := counter1 }
          hnd1 hlook hsnap.2
      rw [entrySizesSum_setTag_of_lookup_some hm2]
      have hmsz := hsnap.1
      dsimp only
      omega
    | none =>
      rw [hlook] at hsnap
      have hm2 : lookupTag sEv.imageCache tag = none :=
        evictLRUEntries_lookup_none
          { imageCache := s.imageCache, currentCacheSize := counter1 } hlook
      rw [entrySizesSum_setTag_of_lookup_none hm2]
      dsimp only
      omega

theorem fetchSuccess_preserves_wf (tag : String) (fid : Nat)
    (snapshot : Option ImageCacheEntry) (imgs : List CloudinaryImage)
    (now : Nat) (s : CacheState)
    (hnd : KeysNodup s) (hsc : SizeConsistent s)
    (hsnap : SnapshotAccurate s tag snapshot) :
    KeysNodup (fetchPromiseSettle tag fid snapshot (.ok imgs) now s).1 ∧
    SizeConsistent (fetchPromiseSettle tag fid snapshot (.ok imgs) now s).1 := by
  unfold SnapshotAccurate at hsnap
  cases snapshot with
  | none =>
    have hsnap2 : match lookupTag s.imageCache tag with
        | some m => m.sizeBytes = 0 ∧ m.promise.isSome = true
        | none => (0 : Nat) = 0 := by
      cases hlook : lookupTag s.imageCache tag with
      | some m =>
        rw [hlook] at hsnap
        exact ⟨hsnap.1, hsnap.2⟩
      | none => rfl
    simp only [fetchPromiseSettle]
    exact fetchSuccess_core tag imgs now s 0 _ hnd hsc (by omega) hsnap2
  | some c =>
    have hsnap2 : match lookupTag s.imageCache tag with
        | some m => m.sizeBytes = c.sizeBytes ∧ m.promise.isSome = true
        | none => c.sizeBytes = 0 := by
      cases hlook : lookupTag s.imageCache tag with
      | some m =>
        rw [hlook] at hsnap
        exact ⟨hsnap.1, hsnap.2⟩
      | none =>
        rw [hlook] at hsnap
        exact hsnap
    have hsize1 : (if c.sizeBytes ≠ 0 then
          s.currentCacheSize - (c.sizeBytes : Int)
        else s.currentCacheSize) =
        s.currentCacheSize - (c.sizeBytes : Int) := by
      by_cases h0 : c.sizeBytes = 0
      · simp [h0]
      · simp [h0]
    simp only [fetchPromiseSettle, hsize1]
    exact fetchSuccess_core tag imgs now s c.sizeBytes _ hnd hsc (by ring)
      hsnap2

end OpLemmas

section CallLemmas

theorem getCall_miss (tag : String) (now newFid : Nat) (s : CacheState)
    (hmiss : lookupTag s.imageCache tag = none) :
    getCloudinaryImagesByTagCall tag now newFid s =
      ({ s with imageCache :=
          setTag s.imageCache tag (missMarker newFid now) },
       .initiated newFid) := by
  unfold getCloudinaryImagesByTagCall
  rw [hmiss]
  rfl

theorem getCall_hit (tag : String) (now newFid : Nat) (s : CacheState)
    (c : ImageCacheEntry)
    (hc : lookupTag s.imageCache tag = some c)
    (hfresh : now - c.lastFetched < CACHE_DURATION) :
    getCloudinaryImagesByTagCall tag now newFid s =
      ({ s with imageCache :=
          setTag s.imageCache tag ({ c with lastAccessed := now }) },
       .hit c.images) := by
  unfold getCloudinaryImagesByTagCall
  rw [hc]
  dsimp only
  rw [if_pos hfresh]

theorem getCall_attached (tag : String) (now newFid : Nat) (s : CacheState)
    (c : ImageCacheEntry) (f : Nat)
    (hc : lookupTag s.imageCache tag = some c)
    (hstale : ¬ (now - c.lastFetched < CACHE_DURATION))
    (hp : c.promise = some f) :
    getCloudinaryImagesByTagCall tag now newFid s = (s, .attached f) := by
  unfold getCloudinaryImagesByTagCall
  rw [hc]
  dsimp only
  rw [if_neg hstale, hp]

theorem getCall_refetch (tag : String) (now newFid : Nat) (s : CacheState)
    (c : ImageCacheEntry)
    (hc : lookupTag s.imageCache tag = some c)
    (hstale : ¬ (now - c.lastFetched < CACHE_DURATION))
    (hp : c.promise = none) :
    getCloudinaryImagesByTagCall tag now newFid s =
      ({ s with imageCache :=
          setTag s.imageCache tag (refetchMarker c newFid now) },
       .initiated newFid) := by
  unfold getCloudinaryImagesByTagCall
  rw [hc]
  dsimp only
  rw [if_neg hstale, hp]
  rfl

theorem step_call_miss (sys : Sys) (cid : Nat) (tag : String)
    (limit now : Nat)
    (hmiss : lookupTag sys.state.imageCache tag = none) :
    step sys (.call cid tag limit now) =
      { state :=
          { imageCache :=
              setTag sys.state.imageCache tag (missMarker sys.nextFid now),
            currentCacheSize := sys.state.currentCacheSize },
        fetches := sys.fetches ++ [⟨sys.nextFid, tag, limit, none⟩],
        waiting := sys.waiting ++ [⟨cid, sys.nextFid, CallKind.initiator⟩],
        finished := sys.finished,
        nextFid := sys.nextFid + 1 } := by
  simp only [step, getCall_miss tag now sys.nextFid sys.state hmiss, hmiss]

theorem step_call_attached (sys : Sys) (cid : Nat) (tag : String)
    (limit now : Nat) (c : ImageCacheEntry) (f : Nat)
    (hc : lookupTag sys.state.imageCache tag = some c)
    (hstale : ¬ (now - c.lastFetched < CACHE_DURATION))
    (hp : c.promise = some f) :
    step sys (.call cid tag limit now) =
      { sys with
        waiting := sys.waiting ++ [⟨cid, f, CallKind.attached⟩] } := by
  simp only [step,
    getCall_attached tag now sys.nextFid sys.state c f hc hstale hp]

theorem runFrom_attached_calls (rest : List (Nat × Nat × Nat)) (sys : Sys)
    (tag : String) (f : Nat) (c : ImageCacheEntry)
    (hc : lookupTag sys.state.imageCache tag = some c)
    (hp : c.promise = some f) (hlf : c.lastFetched = 0)
    (ht : ∀ r ∈ rest, CACHE_DURATION ≤ r.2.2) :
    runFrom sys (rest.map (fun r => Event.call r.1 tag r.2.1 r.2.2)) =
      { sys with waiting := sys.waiting ++
          rest.map (fun r => ⟨r.1, f, CallKind.attached⟩) } := by
  induction rest generalizing sys with
  | nil => simp [runFrom]
  | cons r rs ih =>
    have hstale : ¬ (r.2.2 - c.lastFetched < CACHE_DURATION) := by
      rw [hlf]
      have := ht r (List.mem_cons_self _ _)
      omega
    simp only [List.map_cons, runFrom, List.foldl_cons]
    rw [show step sys (Event.call r.1 tag r.2.1 r.2.2) =
        { sys with waiting := sys.waiting ++ [⟨r.1, f, CallKind.attached⟩] }
      from step_call_attached sys r.1 tag r.2.1 r.2.2 c f hc hstale hp]
    have ih2 := ih
      { sys with waiting := sys.waiting ++ [⟨r.1, f, CallKind.attached⟩] }
      hc (fun q hq => ht q (List.mem_cons_of_mem _ hq))
    simp only [runFrom] at ih2
    rw [ih2]
    simp

theorem findFetch_append_of_fresh (fetches : List PendingFetch)
    (pf : PendingFetch) (hf : ∀ q ∈ fetches, q.fid ≠ pf.fid) :
    findFetch (fetches ++ [pf]) pf.fid = some pf := by
  induction fetches with
  | nil => simp [findFetch]
  | cons q qs ih =>
    have hq : q.fid ≠ pf.fid := hf q (List.mem_cons_self _ _)
    simp only [List.cons_append, findFetch, if_neg hq]
    exact ih (fun q2 hq2 => hf q2 (List.mem_cons_of_mem _ hq2))

theorem fetchPromiseSettle_snd_none_snapshot (tag : String) (f : Nat)
    (res : Except Unit (List CloudinaryImage)) (tN : Nat) (s : CacheState) :
    (fetchPromiseSettle tag f none res tN s).2 =
      match res with
      | .ok imgs => Except.ok imgs
      | .error _ => Except.ok [] := by
  cases res <;> rfl

end CallLemmas

section TraceLemmas

theorem step_preserves_noRejectInv (sys : Sys) (ev : Event)
    (h : NoRejectInv sys) : NoRejectInv (step sys ev) := by
  obtain ⟨hfin, hwait⟩ := h
  cases ev with
  | call cid tag limit now =>
    simp only [step]
    rcases hout : getCloudinaryImagesByTagCall tag now sys.nextFid sys.state
      with ⟨s1, outcome⟩
    cases outcome with
    | hit images =>
      refine ⟨?_, hwait⟩
      intro fc hfc hkind
      rcases List.mem_append.mp hfc with hm | hm
      · exact hfin fc hm hkind
      · simp only [List.mem_singleton] at hm
        subst hm
        exact ⟨images, rfl⟩
    | attached fid =>
      refine ⟨hfin, ?_⟩
      intro w hw
      rcases List.mem_append.mp hw with hm | hm
      · exact hwait w hm
      · simp only [List.mem_singleton] at hm
        subst hm
        simp
    | initiated fid =>
      refine ⟨hfin, ?_⟩
      intro w hw
      rcases List.mem_append.mp hw with hm | hm
      · exact hwait w hm
      · simp only [List.mem_singleton] at hm
        subst hm
        simp
  | settle fid result now =>
    simp only [step]
    cases hff : findFetch sys.fetches fid with
    | none => exact ⟨hfin, hwait⟩
    | some pf =>
      constructor
      · intro fc hfc hkind
        rcases List.mem_append.mp hfc with hm | hm
        · exact hfin fc hm hkind
        · rcases List.mem_map.mp hm with ⟨w, hw, hfc2⟩
          have hw2 : w ∈ sys.waiting := (List.mem_filter.mp hw).1
          subst hfc2
          rcases hkind with hk | hk
          · exact absurd hk (hwait w hw2)
          · simp only at hk
            rw [hk]
            simp only
            exact fetchPromiseSettle_snd_ok pf.tag fid pf.snapshot result
              now sys.state
      · intro w hw
        exact hwait w (List.mem_filter.mp hw).1
  | adminClear => exact ⟨hfin, hwait⟩
  | sweep now => exact ⟨hfin, hwait⟩

theorem runFrom_noRejectInv (evs : List Event) (sys : Sys)
    (h : NoRejectInv sys) : NoRejectInv (runFrom sys evs) := by
  induction evs generalizing sys with
  | nil => exact h
  | cons ev evs ih =>
    exact ih (step sys ev) (step_preserves_noRejectInv sys ev h)

theorem filter_waiting_beq_nil (ws : List WaitingCaller) (f : Nat)
    (h : ∀ w ∈ ws, w.fid ≠ f) :
    ws.filter (fun w => w.fid == f) = [] := by
  induction ws with
  | nil => rfl
  | cons w ws ih =>
    have hw : (w.fid == f) = false := by
      simpa using h w (List.mem_cons_self _ _)
    simp only [List.filter_cons, hw, cond_false]
    exact ih (fun x hx => h x (List.mem_cons_of_mem _ hx))

theorem filter_fetches_bne_self (fs : List PendingFetch) (f : Nat)
    (h : ∀ q ∈ fs, q.fid ≠ f) :
    fs.filter (fun q => q.fid != f) = fs := by
  refine List.filter_eq_self.mpr (fun q hq => ?_)
  simpa [bne_iff_ne] using h q hq

theorem runFrom_cons_append_single (sys : Sys) (e b : Event)
    (A : List Event) :
    runFrom sys (e :: (A ++ [b])) = step (runFrom (step sys e) A) b := by
  simp [runFrom, List.foldl_cons, List.foldl_append]

theorem fetchSuccess_lookup (tag : String) (fid : Nat)
    (snapshot : Option ImageCacheEntry) (imgs : List CloudinaryImage)
    (t0 : Nat) (s : CacheState) :
    lookupTag
      (fetchPromiseSettle tag fid snapshot (.ok imgs) t0 s).1.imageCache
      tag = some
      { images := imgs, promise := none, lastFetched := t0,
        lastAccessed := t0, count := imgs.length,
        sizeBytes := calculateImageDataSize imgs } := by
  simp only [fetchPromiseSettle]
  exact lookupTag_setTag_self

end TraceLemmas


section Claims

/-- C1 (corrected).  The no-exception contract holds for every caller that
hit the fresh cache and for every caller that initiated the fetch (the
chain returned at line 272 absorbs rejection into stale images or the
empty list, and the outer try/catch covers the synchronous prefix), over
every event interleaving.  It does not hold for a caller that attached to
an already-pending fetch: that caller was handed the stored raw
fetchPromise (line 264 via line 222), which the .catch of line 272 does
not guard, so a provider rejection reaches it (see the counterexample). -/
theorem getImages_never_rejects_hit_or_initiator (evs : List Event) :
    ∀ fc ∈ (runTrace evs).finished,
      (fc.kind = CallKind.hit ∨ fc.kind = CallKind.initiator) →
      ∃ l, fc.result = Except.ok l := by
  have h := runFrom_noRejectInv evs initialSys
    ⟨fun fc hfc => absurd hfc (by simp [initialSys]),
     fun w hw => absurd hw (by simp [initialSys])⟩
  exact h.1

/-- Witness for C1: a single caller initiates a fetch that rejects and
still receives a plain (empty) image list. -/
theorem getImages_never_rejects_witness :
    ∃ l, (FinishedCaller.mk 7 CallKind.initiator
      (Except.ok ([] : List CloudinaryImage))).result = Except.ok l :=
  getImages_never_rejects_hit_or_initiator evsLoneFail
    ⟨7, CallKind.initiator, Except.ok []⟩ (by decide) (by decide)

/-- Counterexample to C1 as stated: with two concurrent callers for an
uncached tag and a rejecting fetch, the attached caller's promise settles
with the provider's exception, not an image list. -/
theorem getImages_attached_caller_rejects :
    ((runTrace evsTwoCallersFail).finished.map (fun fc => fc.result)) =
      [Except.ok [], Except.error ()] ∧
    ∃ fc ∈ (runTrace evsTwoCallersFail).finished,
      fc.result = Except.error () := by decide

/-- C2 (corrected).  For one initiating call followed by any number of
calls for the same (uncached) tag arriving before the fetch settles:
exactly one fetch is created (the pending marker is stored atomically in
the synchronous prefix, every later caller attaches to it), and when the
provider fulfils, every caller receives the same list.  When the provider
rejects, the callers do NOT all receive the same empty-list fallback: the
initiator receives the fallback while every attached caller receives the
rejection itself. -/
theorem coalescing_single_fetch (sys : Sys) (tag : String) (c1 l1 t1 : Nat)
    (rest : List (Nat × Nat × Nat)) (res : Except Unit (List CloudinaryImage))
    (tN : Nat)
    (hmiss : lookupTag sys.state.imageCache tag = none)
    (hrest : ∀ r ∈ rest, CACHE_DURATION ≤ r.2.2)
    (hfreshF : ∀ pf ∈ sys.fetches, pf.fid ≠ sys.nextFid)
    (hfreshW : ∀ w ∈ sys.waiting, w.fid ≠ sys.nextFid) :
    (runFrom sys (Event.call c1 tag l1 t1 ::
        (rest.map (fun r => Event.call r.1 tag r.2.1 r.2.2) ++
          [Event.settle sys.nextFid res tN]))).nextFid = sys.nextFid + 1 ∧
    (runFrom sys (Event.call c1 tag l1 t1 ::
        (rest.map (fun r => Event.call r.1 tag r.2.1 r.2.2) ++
          [Event.settle sys.nextFid res tN]))).fetches = sys.fetches ∧
    (runFrom sys (Event.call c1 tag l1 t1 ::
        (rest.map (fun r => Event.call r.1 tag r.2.1 r.2.2) ++
          [Event.settle sys.nextFid res tN]))).finished = sys.finished ++
      (⟨c1, CallKind.initiator,
          match res with
          | .ok imgs => Except.ok imgs
          | .error _ => Except.ok []⟩ ::
        rest.map (fun r => ⟨r.1, CallKind.attached, res⟩)) := by
  rw [runFrom_cons_append_single]
  rw [step_call_miss sys c1 tag l1 t1 hmiss]
  rw [runFrom_attached_calls rest _ tag sys.nextFid
    (missMarker sys.nextFid t1) (by exact lookupTag_setTag_self) rfl rfl
    hrest]
  simp only [step]
  have hfind : findFetch (sys.fetches ++
      [(⟨sys.nextFid, tag, l1, none⟩ : PendingFetch)]) sys.nextFid =
      some ⟨sys.nextFid, tag, l1, none⟩ :=
    findFetch_append_of_fresh sys.fetches _ hfreshF
  rw [hfind]
  dsimp only
  refine ⟨rfl, ?_, ?_⟩
  · rw [List.filter_append, filter_fetches_bne_self sys.fetches _ hfreshF]
    simp
  · rw [List.filter_append, List.filter_append,
      filter_waiting_beq_nil sys.waiting _ hfreshW]
    rw [fetchPromiseSettle_snd_none_snapshot]
    simp only [List.filter_map, List.map_map, List.nil_append,
      List.filter_cons, List.map_cons, List.map_append, List.cons_append,
      beq_self_eq_true, if_true, cond_true, List.map_nil,
      List.singleton_append, attachedCallerResult]
    have hpred : ((fun w : WaitingCaller => w.fid == sys.nextFid) ∘
        (fun r : Nat × Nat × Nat =>
          ({ cid := r.1, fid := sys.nextFid, kind := CallKind.attached } :
            WaitingCaller))) = fun _ => true := by
      funext r
      simp [Function.comp]
    rw [hpred, List.filter_true]
    simp only [List.cons.injEq, List.append_cancel_left_eq]
    constructor
    · trivial
    · refine List.map_congr_left (fun r hr => ?_)
      rfl

/-- Witness for C2: two concurrent callers, the fetch fulfils with one
image, and both callers observe that same list from the single fetch. -/
theorem coalescing_single_fetch_witness :
    (runFrom initialSys (Event.call 1 "x" 400 300000 ::
        (([((2 : Nat), (400 : Nat), (300001 : Nat))]).map
            (fun r => Event.call r.1 "x" r.2.1 r.2.2) ++
          [Event.settle initialSys.nextFid (Except.ok [mkImage 5])
            300002]))).nextFid = initialSys.nextFid + 1 ∧
    (runFrom initialSys (Event.call 1 "x" 400 300000 ::
        (([((2 : Nat), (400 : Nat), (300001 : Nat))]).map
            (fun r => Event.call r.1 "x" r.2.1 r.2.2) ++
          [Event.settle initialSys.nextFid (Except.ok [mkImage 5])
            300002]))).fetches = initialSys.fetches ∧
    (runFrom initialSys (Event.call 1 "x" 400 300000 ::
        (([((2 : Nat), (400 : Nat), (300001 : Nat))]).map
            (fun r => Event.call r.1 "x" r.2.1 r.2.2) ++
          [Event.settle initialSys.nextFid (Except.ok [mkImage 5])
            300002]))).finished = initialSys.finished ++
      (⟨1, CallKind.initiator, Except.ok [mkImage 5]⟩ ::
        ([((2 : Nat), (400 : Nat), (300001 : Nat))]).map
          (fun r => ⟨r.1, CallKind.attached, Except.ok [mkImage 5]⟩)) :=
  coalescing_single_fetch initialSys "x" 1 400 300000
    [(2, 400, 300001)] (Except.ok [mkImage 5]) 300002
    (by decide) (by decide) (by decide) (by decide)

/-- Counterexample to C2 as stated: when the shared fetch rejects, the two
coalesced callers do not receive the same empty-list fallback — the
initiator gets the empty list, the attached caller gets the error. -/
theorem coalescing_failure_results_differ :
    ((runTrace evsCoalesceFail).finished.map (fun fc => fc.result)) =
      [Except.ok [], Except.error ()] ∧
    ¬ ∀ fc ∈ (runTrace evsCoalesceFail).finished,
        fc.result = Except.ok ([] : List CloudinaryImage) := by decide

set_option maxRecDepth 40000 in
/-- C3 (corrected).  The eviction routine is a no-op when the cache holds
at most 20 entries and at most 50 MiB of estimated size; otherwise it scans
entries in ascending lastAccessedAt order and removes only entries without
a pending fetch; and the sequential 25-tag insertion leaves exactly 20
entries with the 5 least-recently-accessed tags absent.  However, the
stop test of the scan counts the entries not yet examined, so each skipped
pending entry weakens the entry bound by one and the routine can stop with
more than 20 entries still cached (see the counterexample); the claim's
"until both bounds are satisfied or no removable entries remain" is wrong
on such states. -/
theorem eviction_noop_and_bound :
    (∀ s : CacheState, s.imageCache.length ≤ MAX_CACHE_ENTRIES →
      s.currentCacheSize ≤ MAX_CACHE_SIZE → evictLRUEntries s = s) ∧
    (∀ (s : CacheState) (tag : String) (e : ImageCacheEntry),
      KeysNodup s → lookupTag s.imageCache tag = some e →
      lookupTag (evictLRUEntries s).imageCache tag = none →
      e.promise = none) ∧
    ((runTrace evs25).state.imageCache.map Prod.fst = tags25.drop 5 ∧
      (runTrace evs25).state.imageCache.length = 20) := by
  refine ⟨?_, ?_, ?_⟩
  · intro s h1 h2
    unfold evictLRUEntries
    rw [if_pos ⟨h1, h2⟩]
  · intro s tag e hnd hs hnone
    cases hp : e.promise with
    | none => rfl
    | some f =>
      have := evictLRUEntries_lookup_pending s hnd hs (by simp [hp])
      rw [hnone] at this
      exact absurd this (by simp)
  · decide

/-- Counterexample to C3 as stated: a reachable 22-entry state whose two
oldest-accessed entries carry pending fetches.  The scan skips both, the
remaining-array length then reads 20, and the loop stops having removed
nothing: 22 entries remain, both bounds stay violated, and 20 removable
(non-pending) entries were left untouched. -/
theorem eviction_leaves_excess_entries :
    evictLRUEntries overfullPendingState = overfullPendingState ∧
    overfullPendingState.imageCache.length = 22 ∧
    MAX_CACHE_ENTRIES < overfullPendingState.imageCache.length ∧
    (overfullPendingState.imageCache.filter
      (fun p => p.2.promise.isNone)).length = 20 := by decide

/-- C4 (corrected).  Size accounting — each entry's sizeBytes equals
images.length × 1024 and currentCacheSize equals the sum over all
entries — is preserved by the synchronous call prefix, by fetch failure,
by eviction, by the expiry sweep, by the admin clear, and by fetch success
as long as the entry recorded for the tag still matches the snapshot the
fetch captured (SnapshotAccurate), which holds whenever no admin clear ran
during the flight.  The claim's "in any interleaving ... including a clear
issued while a fetch is in flight" is wrong: after such a clear the
completion subtracts the stale snapshot size and the counter diverges from
the sum (see the counterexample). -/
theorem size_accounting_preservation :
    (∀ (tag : String) (now newFid : Nat) (s : CacheState),
      KeysNodup s → SizeConsistent s →
      KeysNodup (getCloudinaryImagesByTagCall tag now newFid s).1 ∧
      SizeConsistent (getCloudinaryImagesByTagCall tag now newFid s).1) ∧
    (∀ (tag : String) (fid : Nat) (snapshot : Option ImageCacheEntry)
        (imgs : List CloudinaryImage) (now : Nat) (s : CacheState),
      KeysNodup s → SizeConsistent s → SnapshotAccurate s tag snapshot →
      KeysNodup (fetchPromiseSettle tag fid snapshot (.ok imgs) now s).1 ∧
      SizeConsistent (fetchPromiseSettle tag fid snapshot (.ok imgs) now s).1) ∧
    (∀ (tag : String) (fid : Nat) (snapshot : Option ImageCacheEntry)
        (err : Unit) (now : Nat) (s : CacheState),
      KeysNodup s → SizeConsistent s →
      KeysNodup (fetchPromiseSettle tag fid snapshot (.error err) now s).1 ∧
      SizeConsistent (fetchPromiseSettle tag fid snapshot (.error err) now s).1) ∧
    (∀ s : CacheState, KeysNodup s → SizeConsistent s →
      KeysNodup (evictLRUEntries s) ∧
      SizeConsistent (evictLRUEntries s)) ∧
    (∀ (now : Nat) (s : CacheState), KeysNodup s → SizeConsistent s →
      KeysNodup (cleanupExpiredEntries now s).1 ∧
      SizeConsistent (cleanupExpiredEntries now s).1) ∧
    (∀ s : CacheState,
      KeysNodup (cacheClear s).1 ∧ SizeConsistent (cacheClear s).1) := by
  refine ⟨getCall_preserves_wf, fetchSuccess_preserves_wf,
    fetchFailure_preserves_wf, ?_, ?_, ?_⟩
  · intro s hnd hsc
    obtain ⟨nd2, sub2, delta2⟩ := evictLRUEntries_wf s hnd
    refine ⟨nd2, fun p hp => hsc.1 p (sub2 p hp), ?_⟩
    have hsum := hsc.2
    omega
  · intro now s hnd hsc
    obtain ⟨nd2, sub2, delta2⟩ := cleanupExpiredEntries_wf s now hnd
    refine ⟨nd2, fun p hp => hsc.1 p (sub2 p hp), ?_⟩
    have hsum := hsc.2
    omega
  · intro s
    rw [cacheClear_spec s]
    refine ⟨?_, ?_⟩
    · simp [KeysNodup]
    · exact ⟨fun p hp => absurd hp (List.not_mem_nil p), rfl⟩

/-- Counterexample to C4 as stated: populate a tag (size 1024), start a
refetch after expiry, run the admin clear while the refetch is in flight,
and let the refetch succeed with two images.  The completion subtracts the
pre-clear snapshot size from the zeroed counter: the entry records 2048
estimated bytes but the global counter reads 1024. -/
theorem size_accounting_broken_by_clear :
    ¬ SizeConsistent (runTrace evsClearDuringFlight).state ∧
    (runTrace evsClearDuringFlight).state.currentCacheSize = 1024 ∧
    entrySizesSum (runTrace evsClearDuringFlight).state.imageCache =
      2048 := by decide

/-- C5 (confirmed).  When the fetch for a tag rejects and the initiating
call had captured a previously populated entry with a non-empty image
list, the caller receives that stale list, the pending marker is cleared
(promise := none on the entry, all other fields untouched, in particular
lastFetched), and when the snapshot holds no images the caller receives
the empty list. -/
theorem stale_on_error (s : CacheState) (tag : String) (fid : Nat)
    (c m : ImageCacheEntry) (now : Nat)
    (hm : lookupTag s.imageCache tag = some m)
    (hp : m.promise = some fid) :
    (0 < c.images.length →
      fetchPromiseSettle tag fid (some c) (.error ()) now s =
        ({ s with imageCache :=
            setTag s.imageCache tag ({ m with promise := none }) },
         Except.ok c.images)) ∧
    (c.images = [] →
      (fetchPromiseSettle tag fid (some c) (.error ()) now s).2 =
        Except.ok []) ∧
    ((fetchPromiseSettle tag fid none (.error ()) now s).2 =
      Except.ok []) ∧
    ((lookupTag
        (fetchPromiseSettle tag fid (some c) (.error ()) now s).1.imageCache
        tag).map (fun e => e.lastFetched) = some m.lastFetched) := by
  have hstate : (fetchPromiseSettle tag fid (some c) (.error ()) now s).1 =
      { s with imageCache :=
          setTag s.imageCache tag ({ m with promise := none }) } := by
    simp only [fetchPromiseSettle]
    rw [hm]
    dsimp only
    rw [if_pos hp]
    by_cases himg : 0 < c.images.length
    · rw [if_pos himg]
    · rw [if_neg himg]
  refine ⟨?_, ?_, ?_, ?_⟩
  · intro himg
    simp only [fetchPromiseSettle]
    rw [hm]
    dsimp only
    rw [if_pos hp, if_pos himg]
  · intro h0
    simp only [fetchPromiseSettle]
    rw [hm]
    dsimp only
    rw [if_pos hp, if_neg (by simp [h0])]
  · rfl
  · rw [hstate]
    show (lookupTag (setTag s.imageCache tag _) tag).map _ = _
    rw [lookupTag_setTag_self]
    rfl

/-- Witness for C5: a pending one-entry state whose refetch rejects while
the snapshot holds one stale image; the caller receives that stale image
and the entry keeps its lastFetched with the marker cleared. -/
theorem stale_on_error_witness :
    fetchPromiseSettle "alpha" 0 (some (pendingEntry 0)) (.error ())
        5000000 pendingDemoState =
      ({ imageCache := [("alpha", { pendingEntry 0 with promise := none })],
         currentCacheSize := 1024 },
       Except.ok (pendingEntry 0).images) :=
  (stale_on_error pendingDemoState "alpha" 0 (pendingEntry 0)
    (pendingEntry 0) 5000000 (by decide) (by decide)).1 (by decide)

/-- C6 (confirmed).  A call finding an entry with
now − lastFetchedAt < CACHE_DURATION returns the cached images without
initiating a fetch, updating only lastAccessedAt; after a successful fetch
completing at t0, a call at t0 + CACHE_DURATION − 1 is such a hit on the
fetched list, while a call at t0 + CACHE_DURATION + 1 initiates a new
fetch. -/
theorem freshness_window :
    (∀ (s : CacheState) (tag : String) (c : ImageCacheEntry) (now fid : Nat),
      lookupTag s.imageCache tag = some c →
      now - c.lastFetched < CACHE_DURATION →
      getCloudinaryImagesByTagCall tag now fid s =
        ({ s with imageCache :=
            setTag s.imageCache tag ({ c with lastAccessed := now }) },
         CallOutcome.hit c.images)) ∧
    (∀ (s : CacheState) (tag : String) (fid fid2 : Nat)
        (snapshot : Option ImageCacheEntry) (imgs : List CloudinaryImage)
        (t0 : Nat),
      (getCloudinaryImagesByTagCall tag (t0 + CACHE_DURATION - 1) fid2
          (fetchPromiseSettle tag fid snapshot (.ok imgs) t0 s).1).2 =
        CallOutcome.hit imgs ∧
      (getCloudinaryImagesByTagCall tag (t0 + CACHE_DURATION + 1) fid2
          (fetchPromiseSettle tag fid snapshot (.ok imgs) t0 s).1).2 =
        CallOutcome.initiated fid2) := by
  refine ⟨?_, ?_⟩
  · intro s tag c now fid hc hfresh
    exact getCall_hit tag now fid s c hc hfresh
  · intro s tag fid fid2 snapshot imgs t0
    constructor
    · rw [getCall_hit tag (t0 + CACHE_DURATION - 1) fid2
        (fetchPromiseSettle tag fid snapshot (.ok imgs) t0 s).1
        _ (fetchSuccess_lookup tag fid snapshot imgs t0 s)
        (show t0 + CACHE_DURATION - 1 - t0 < CACHE_DURATION from by
          have hd : CACHE_DURATION = 300000 := rfl
          omega)]
    · rw [getCall_refetch tag (t0 + CACHE_DURATION + 1) fid2
        (fetchPromiseSettle tag fid snapshot (.ok imgs) t0 s).1
        _ (fetchSuccess_lookup tag fid snapshot imgs t0 s)
        (show ¬ (t0 + CACHE_DURATION + 1 - t0 < CACHE_DURATION) from by
          have hd : CACHE_DURATION = 300000 := rfl
          omega)
        rfl]
/-- C7 (confirmed).  An entry whose pending-fetch marker is set survives
both the eviction routine and the expiry sweeper unchanged, whatever its
lastAccessedAt or lastFetchedAt; both routines skip it and continue. -/
theorem pending_protection (s : CacheState) (tag : String)
    (e : ImageCacheEntry) (now : Nat)
    (hnd : KeysNodup s)
    (hs : lookupTag s.imageCache tag = some e)
    (hp : e.promise.isSome) :
    lookupTag (evictLRUEntries s).imageCache tag = some e ∧
    lookupTag (cleanupExpiredEntries now s).1.imageCache tag = some e :=
  ⟨evictLRUEntries_lookup_pending s hnd hs hp,
   cleanupExpiredEntries_lookup_pending s now hnd hs hp⟩

/-- Witness for C7: a pending entry fetched long before the sweep instant
(so it would count as expired) is kept by both routines. -/
theorem pending_protection_witness :
    lookupTag (evictLRUEntries pendingDemoState).imageCache "alpha" =
      some (pendingEntry 0) ∧
    lookupTag (cleanupExpiredEntries 9999999 pendingDemoState).1.imageCache
      "alpha" = some (pendingEntry 0) :=
  pending_protection pendingDemoState "alpha" (pendingEntry 0) 9999999
    (by decide) (by decide) (by decide)

/-- C8 (confirmed).  Admin access validation denies every request when the
CACHE_API_KEY variable is absent or empty; with a non-empty configured
secret it accepts exactly the Authorization headers of the form
"Bearer " ++ secret (case-sensitive, exact); and any request to the two
cache endpoints that fails validation is answered with the unauthorized
(401 + WWW-Authenticate challenge) response, the state untouched. -/
theorem admin_gating :
    (∀ h : Option (List Char), validateCacheApiAccess none h = false) ∧
    (∀ h : Option (List Char), validateCacheApiAccess (some []) h = false) ∧
    (∀ k : List Char, validateCacheApiAccess (some k) none = false) ∧
    (∀ k h : List Char, k ≠ [] →
      (validateCacheApiAccess (some k) (some h) = true ↔
        h = bearerPrefix ++ k)) ∧
    (∀ (key : Option (List Char)) (hdr : Option (List Char)) (now : Nat)
        (s : CacheState) (path : String),
      validateCacheApiAccess key hdr = false →
      (path = "/api/cache/status" ∨ path = "/api/cache/clear") →
      handleCacheApi key { path := path, authHeader := hdr } now s =
        (s, AdminResponse.unauthorized)) := by
  refine ⟨fun h => rfl, fun h => rfl, ?_, ?_, ?_⟩
  · intro k
    by_cases hk : k = [] <;> simp [validateCacheApiAccess, hk]
  · intro k h hk
    unfold validateCacheApiAccess
    dsimp only
    rw [if_neg hk]
    constructor
    · intro hv
      simp only [Bool.and_eq_true, List.isPrefixOf_iff_prefix,
        beq_iff_eq] at hv
      obtain ⟨⟨t, ht⟩, hd⟩ := hv
      subst ht
      have hl : bearerPrefix.length = 7 := by decide
      rw [← hl, List.drop_left] at hd
      rw [hd]
    · intro hv
      subst hv
      have hl : bearerPrefix.length = 7 := by decide
      simp [List.isPrefixOf_iff_prefix, ← hl, List.drop_left]
  · intro key hdr now s path hv hpath
    have hcase : ∀ path2 : String, pathIsCacheApi path2 = true →
        handleCacheApi key { path := path2, authHeader := hdr } now s =
          (s, AdminResponse.unauthorized) := by
      intro path2 hp2
      unfold handleCacheApi
      dsimp only
      rw [hp2, hv]
      simp
    rcases hpath with rfl | rfl
    · exact hcase _ (by decide)
    · exact hcase _ (by decide)

/-- Witness for C8 through its authorization-gate conjunct: with a secret
configured and no credential presented, the status endpoint answers
unauthorized and leaves the cache untouched. -/
theorem admin_gating_witness :
    handleCacheApi (some ("key".data))
        { path := "/api/cache/status", authHeader := none } 11
        pendingDemoState =
      (pendingDemoState, AdminResponse.unauthorized) :=
  admin_gating.2.2.2.2 (some ("key".data)) none 11 pendingDemoState
    "/api/cache/status" (by decide) (Or.inl rfl)

/-- C9 (confirmed).  An authorized clear empties the table unconditionally
(pending entries included), zeroes the size counter, and reports the count
of entries cleared and the total size cleared in KB; the status report of
the cleared state shows no entries and zero total size; and a subsequent
call for any tag misses and initiates a fresh fetch. -/
theorem clear_semantics (k : List Char) (s : CacheState)
    (now now2 : Nat) (tag : String) (fid : Nat) (hk : k ≠ []) :
    handleCacheApi (some k)
        { path := "/api/cache/clear",
          authHeader := some (bearerPrefix ++ k) } now s =
      ({ imageCache := [], currentCacheSize := 0 },
       AdminResponse.clearOk s.imageCache.length
         (roundDivKB (natSizesSum s.imageCache))) ∧
    cacheStatus now2 { imageCache := [], currentCacheSize := 0 } =
      { cacheEntries := [], totalEntries := 0, totalSizeMB := 0,
        maxSizeMB := 50, maxEntries := 20, cacheDurationSeconds := 300 } ∧
    getCloudinaryImagesByTagCall tag now2 fid
        { imageCache := [], currentCacheSize := 0 } =
      ({ imageCache := [(tag, missMarker fid now2)],
         currentCacheSize := 0 },
       CallOutcome.initiated fid) := by
  have hval : validateCacheApiAccess (some k)
      (some (bearerPrefix ++ k)) = true := by
    unfold validateCacheApiAccess
    dsimp only
    rw [if_neg hk]
    have hl : bearerPrefix.length = 7 := by decide
    simp [List.isPrefixOf_iff_prefix, ← hl, List.drop_left]
  refine ⟨?_, ?_, ?_⟩
  · unfold handleCacheApi
    dsimp only
    rw [hval]
    rw [if_pos (show pathIsCacheApi "/api/cache/clear" = true by decide)]
    simp [cacheClear_spec]
  · unfold cacheStatus
    simp only [CacheStatusDTO.mk.injEq]
    norm_num [MAX_CACHE_SIZE, CACHE_DURATION, MAX_CACHE_ENTRIES]
  · exact getCall_miss tag now2 fid _ rfl

/-- Witness for C9: clearing a one-entry cache of 1024 estimated bytes
reports one entry and 1 KB cleared, and the follow-up call initiates a
fetch. -/
theorem clear_semantics_witness :
    handleCacheApi (some ("key".data))
        { path := "/api/cache/clear",
          authHeader := some (bearerPrefix ++ "key".data) } 11
        pendingDemoState =
      ({ imageCache := [], currentCacheSize := 0 },
       AdminResponse.clearOk 1 1) ∧
    cacheStatus 12 { imageCache := [], currentCacheSize := 0 } =
      { cacheEntries := [], totalEntries := 0, totalSizeMB := 0,
        maxSizeMB := 50, maxEntries := 20, cacheDurationSeconds := 300 } ∧
    getCloudinaryImagesByTagCall "alpha" 12 9
        { imageCache := [], currentCacheSize := 0 } =
      ({ imageCache := [("alpha", missMarker 9 12)],
         currentCacheSize := 0 },
       CallOutcome.initiated 9) :=
  clear_semantics ("key".data) pendingDemoState 11 12 "alpha" 9 (by decide)

/-- C10 (corrected).  A fetch completing after the cache was cleared
unconditionally re-inserts a fresh entry for its tag into the emptied
table; but the counter does not simply gain the entry's estimated size:
it gains (estimated size − the pre-fetch snapshot entry's recorded size).
The two coincide exactly when the fetch began on a cache miss; for a
refetch of a previously populated tag the counter ends up short by the
snapshot's size (see the counterexample). -/
theorem clear_during_flight_repopulates (tag : String) (fid : Nat)
    (snapshot : Option ImageCacheEntry) (imgs : List CloudinaryImage)
    (now : Nat) :
    (fetchPromiseSettle tag fid snapshot (.ok imgs) now
        { imageCache := [], currentCacheSize := 0 }).1.imageCache =
      [(tag, { images := imgs, promise := none, lastFetched := now,
               lastAccessed := now, count := imgs.length,
               sizeBytes := calculateImageDataSize imgs })] ∧
    (fetchPromiseSettle tag fid snapshot (.ok imgs) now
        { imageCache := [], currentCacheSize := 0 }).1.currentCacheSize =
      (calculateImageDataSize imgs : Int) -
        (snapshotSizeBytes snapshot : Int) ∧
    (fetchPromiseSettle tag fid snapshot (.ok imgs) now
        { imageCache := [], currentCacheSize := 0 }).2 =
      Except.ok imgs := by
  cases snapshot with
  | none =>
    simp only [fetchPromiseSettle]
    rw [evictLRUEntries_nil]
    refine ⟨rfl, ?_, trivial⟩
    simp [snapshotSizeBytes]
  | some c =>
    have hsize1 : (if c.sizeBytes ≠ 0 then
          ((0 : Int) - (c.sizeBytes : Int)) else (0 : Int)) =
        (0 : Int) - (c.sizeBytes : Int) := by
      by_cases h0 : c.sizeBytes = 0
      · simp [h0]
      · simp [h0]
    simp only [fetchPromiseSettle]
    rw [hsize1, evictLRUEntries_nil]
    refine ⟨rfl, ?_, trivial⟩
    simp only [snapshotSizeBytes]
    ring

/-- Counterexample to C10 as stated: a refetch in flight when the clear
runs re-inserts its entry with 2048 estimated bytes, but the counter ends
at 1024 — the snapshot's 1024 bytes were subtracted from the emptied
counter — so the completion does not add the entry's estimated size. -/
theorem clear_during_flight_size_counter :
    (lookupTag (runTrace evsClearFlightRepop).state.imageCache "eps").map
      (fun e => e.sizeBytes) = some 2048 ∧
    (runTrace evsClearFlightRepop).state.currentCacheSize = 1024 ∧
    (runTrace evsClearFlightRepop).state.currentCacheSize ≠
      (2048 : Int) := by decide

end Claims

end ImgGrid

